import Mathlib

/-!
# image-lister: a verification development

A shallow embedding of `main.go` (the input loader `ReadLines`, the reference
builder and pull loop of `main`, and the filter that builds `output.Images`)
together with theorems about it.

Go strings and byte slices are lists of bytes.  The operations of the operating
system and of the container-engine client are passed in as an environment, and a
run of `main` returns the trace of the external operations it performed.
-/

namespace ImageLister

/-! ## Data model -/

/-- A Go `string` / `[]byte`: a finite sequence of bytes. -/
abbrev GoString := List UInt8

/-- The bytes of a string literal of the Go source (UTF-8 encoded). -/
def str (s : String) : GoString := s.toList.flatMap String.utf8EncodeChar

/-- Modelled from the spec: the record type `types.Image` of the container-engine
client library is not part of this repository.  The spec describes it as an
opaque structure "carrying at minimum an identifier and an ordered collection of
tag-alias strings"; `main` only ever reads its `RepoTags`. -/
structure Image where
  ID : GoString
  RepoTags : List GoString
  deriving DecidableEq, Repr

/-- `OutputMap` of `main.go`: what is printed to stdout. -/
structure OutputMap where
  Hostname : GoString
  Date : GoString
  Images : List Image
  deriving DecidableEq, Repr

/-! ## The filter step of `main` (lines 128-136) -/

/-- The innermost loop: `for _, listedRepoTag := range li.RepoTags`, appending
`li` to the output on every alias equal to `rt`. -/
def filterAliases (rt : GoString) (li : Image) (out : List Image) : List Image :=
  li.RepoTags.foldl
    (fun out listedRepoTag => if listedRepoTag = rt then out ++ [li] else out) out

/-- The middle loop: `for _, li := range listedImages`. -/
def filterListed (rt : GoString) (listedImages : List Image) (out : List Image) :
    List Image :=
  listedImages.foldl (fun out li => filterAliases rt li out) out

/-- The outer loop: `for _, rt := range repoTags`, started on the images
already in `out`. -/
def filterLoop (repoTags : List GoString) (listedImages : List Image)
    (out : List Image) : List Image :=
  repoTags.foldl (fun out rt => filterListed rt listedImages out) out

/-- The filter step of `main`: the triple loop run on the empty
`output.Images`. -/
def filterImages (repoTags : List GoString) (listedImages : List Image) : List Image :=
  filterLoop repoTags listedImages []

/-- The replacement filter of the design notes, following the spec's words: a set
is built from all requested references, and every listed image, in order, is
appended once for each of its aliases, in order, that is a member of the set. -/
def filterImagesSet (repoTags : List GoString) (listedImages : List Image) :
    List Image :=
  let requested : Finset GoString := repoTags.toFinset
  listedImages.foldl
    (fun out li =>
      li.RepoTags.foldl
        (fun out listedRepoTag => if listedRepoTag ∈ requested then out ++ [li] else out)
        out)
    []

/-- The reference built by `fmt.Sprintf("%s/%s:%s", *repo, img, *tag)`. -/
def mkRef (repo tag img : GoString) : GoString :=
  repo ++ str "/" ++ img ++ str ":" ++ tag

/-! ## The input loader: `bufio.Scanner` with `bufio.ScanLines` -/

/-- `bufio.MaxScanTokenSize`: the largest buffer a `Scanner` allocates. -/
def maxScanTokenSize : Nat := 64 * 1024

/-- `startBufSize` of package `bufio`: the size of the first buffer. -/
def startBufSize : Nat := 4096

/-- The largest value of Go's `int` on a 64-bit platform. -/
def maxInt : Nat := 2 ^ 63 - 1

/-- `dropCR` of package `bufio`: drops one terminal `\r` from the data. -/
def dropCR (data : List UInt8) : List UInt8 :=
  if data.getLast? = some 13 then data.dropLast else data

/-- `bufio.ScanLines`, the split function: the number of bytes to advance and the
token, if one can be cut from `data`.  Its error result is always `nil`. -/
def ScanLines (data : List UInt8) (atEOF : Bool) : Nat × Option (List UInt8) :=
  if atEOF = true ∧ data.length = 0 then (0, none)
  else if List.indexOf 10 data < data.length then
    -- a full newline-terminated line
    (List.indexOf 10 data + 1, some (dropCR (data.take (List.indexOf 10 data))))
  else if atEOF = true then
    -- a final, non-terminated line
    (data.length, some (dropCR data))
  else
    -- request more data
    (0, none)

/-- The errors a `Scanner` over a `bytes.Reader` can record in `s.err`. -/
inductive ScanErr where
  | EOF
  | ErrTooLong
  | ErrAdvanceTooFar
  | ErrNoProgress
  deriving DecidableEq, Repr

/-- The state of a `bufio.Scanner` reading from a `bytes.Reader`.
`r` is what the reader has not handed out yet, `bufLen` is `len(s.buf)`,
`window` is `s.buf[s.start:s.end]`, so that `s.end = start + window.length`. -/
structure Scanner where
  r : List UInt8
  bufLen : Nat
  start : Nat
  window : List UInt8
  err : Option ScanErr
  deriving DecidableEq, Repr

/-- `s.end` of the scanner. -/
def Scanner.endPos (s : Scanner) : Nat := s.start + s.window.length

/-- `bufio.NewScanner(bytes.NewReader(content))`: no buffer is allocated yet. -/
def NewScanner (content : List UInt8) : Scanner :=
  { r := content, bufLen := 0, start := 0, window := [], err := none }

/-- `setErr`: records the first error that is not `io.EOF`. -/
def Scanner.setErr (s : Scanner) (e : ScanErr) : Scanner :=
  match s.err with
  | none => { s with err := some e }
  | some ScanErr.EOF => { s with err := some e }
  | some _ => s

/-- What one turn of the `for` loop of `Scanner.Scan` does. -/
inductive ScanStep where
  /-- `Scan` returns `true` and `s.tok` is the token. -/
  | token (tok : List UInt8) (s : Scanner)
  /-- `Scan` returns `false`. -/
  | stop (s : Scanner)
  /-- The loop goes round again. -/
  | again (s : Scanner)
  deriving DecidableEq, Repr

/-- The read of `Scan`: `s.r.Read(s.buf[s.end:len(s.buf)])` on a `bytes.Reader`.
An exhausted reader answers `0, io.EOF`; otherwise it copies as many bytes as fit
and answers `nil`.  A read into an empty slice would return `0, nil` each time,
and after a hundred of them `Scan` records `io.ErrNoProgress`. -/
def Scanner.read (s : Scanner) : Scanner :=
  if s.r.length = 0 then s.setErr ScanErr.EOF
  else if s.bufLen - s.endPos = 0 then s.setErr ScanErr.ErrNoProgress
  else
    { s with window := s.window ++ s.r.take (s.bufLen - s.endPos),
             r := s.r.drop (s.bufLen - s.endPos) }

/-- The second half of a turn of `Scan`, reached when no token can be cut from
what is held: give up at end of input, else shift the data to the front of the
buffer, grow the buffer when it is full, and read more input. -/
def Scanner.fill (s : Scanner) : ScanStep :=
  if s.err.isSome then ScanStep.stop { s with start := 0, window := [] }
  else
    let s1 : Scanner :=
      if 0 < s.start ∧ (s.endPos = s.bufLen ∨ s.bufLen / 2 < s.start) then
        { s with start := 0 }
      else s
    if s1.endPos = s1.bufLen then
      if maxScanTokenSize ≤ s1.bufLen ∨ maxInt / 2 < s1.bufLen then
        ScanStep.stop (s1.setErr ScanErr.ErrTooLong)
      else
        let newSize := if s1.bufLen * 2 = 0 then startBufSize else s1.bufLen * 2
        ScanStep.again
          (Scanner.read { s1 with bufLen := min newSize maxScanTokenSize, start := 0 })
    else ScanStep.again (Scanner.read s1)

/-- One turn of the `for` loop of `Scanner.Scan` with the split function
`ScanLines`.  The counter of tokens returned without advancing is left out:
`ScanLines` never returns a token with `advance = 0`. -/
def Scanner.iterate (s : Scanner) : ScanStep :=
  if 0 < s.window.length ∨ s.err.isSome then
    let res := ScanLines s.window s.err.isSome
    if s.window.length < res.1 then
      ScanStep.stop (s.setErr ScanErr.ErrAdvanceTooFar)
    else
      let s1 : Scanner := { s with start := s.start + res.1, window := s.window.drop res.1 }
      match res.2 with
      | some tok => ScanStep.token tok s1
      | none => s1.fill
  else s.fill

/-- The loop `for scanner.Scan() { lines = append(lines, scanner.Text()) }`,
turn by turn; `none` when the fuel runs out before `Scan` returns `false`. -/
def scanAll : Nat → Scanner → List GoString → Option (List GoString)
  | 0, _, _ => none
  | fuel + 1, s, lines =>
    match s.iterate with
    | ScanStep.token tok s1 => scanAll fuel s1 (lines ++ [tok])
    | ScanStep.stop _ => some lines
    | ScanStep.again s1 => scanAll fuel s1 lines

/-- `ReadLines` of `main.go`.  Every turn of the scanner either consumes a byte of
the window, moves a byte from the reader to the window, or records the end of
input, so `2 * len + 4` turns are enough (`scanAll_readLines_isSome`). -/
def ReadLines (content : List UInt8) : List GoString :=
  (scanAll (2 * content.length + 4) (NewScanner content) []).getD []

/-- The lines a scanner yields from the unconsumed input `d`, stated directly:
the line up to the first newline when it and the newline fit in the largest
buffer, the unterminated rest when it is shorter than the largest buffer, and
nothing more once a line is too long. -/
def scanSpec (d : List UInt8) : List GoString :=
  if d = [] then []
  else if h : List.indexOf 10 d < d.length then
    if List.indexOf 10 d < maxScanTokenSize then
      dropCR (d.take (List.indexOf 10 d)) :: scanSpec (d.drop (List.indexOf 10 d + 1))
    else []
  else if d.length < maxScanTokenSize then [dropCR d] else []
termination_by d.length
decreasing_by simp only [List.length_drop]; omega

/-- What holds of the scanner at every turn: the data held fits the buffer, the
buffer is no larger than the largest token, and the only error met so far, if
any, is the end of input, found by a read into free space. -/
def Scanner.Inv (s : Scanner) : Prop :=
  s.start + s.window.length ≤ s.bufLen ∧ s.bufLen ≤ maxScanTokenSize ∧
    (s.err = none ∨
      (s.err = some ScanErr.EOF ∧ s.r = [] ∧ s.start + s.window.length < s.bufLen))

/-- A bound on the number of turns the scanner still needs. -/
def Scanner.turns (s : Scanner) : Nat :=
  2 * s.r.length + s.window.length + (if s.err = none then 2 else 1)

/-- A line of 65535 bytes `a`: one byte short of the largest token. -/
def longestLine : GoString := List.replicate 65535 97

/-- The pieces obtained by splitting the content on the newline byte. -/
def segments (content : List UInt8) : List (List UInt8) :=
  List.splitOn 10 content

/-- The bytes obtained by writing each line followed by the terminator. -/
def writeLines (terminator : List UInt8) (lines : List GoString) : List UInt8 :=
  lines.flatMap (fun l => l ++ terminator)

/-! ## The run of `main` -/

/-- The command-line flags after `flag.Parse()`. -/
structure Flags where
  images : GoString
  repo : GoString
  tag : GoString
  uri : GoString
  deriving DecidableEq, Repr

/-- The default values of the flags, as declared at the top of `main.go`. -/
def defaultFlags : Flags :=
  { images := str "", repo := str "discoenv", tag := str "",
    uri := str "unix:///var/run/docker.sock" }

/-- An opened file: what `ioutil.ReadAll` returns for it. -/
structure File where
  readAll : Except GoString (List UInt8)

/-- The stream returned by a pull: the progress text it carries and the error,
if any, that `io.Copy(os.Stderr, body)` ends with. -/
structure Body where
  progress : GoString
  copyErr : Option GoString
  deriving DecidableEq, Repr

/-- The two results of `d.ImagePull`: the body (`none` for a nil interface
value) and the error (`none` for `nil`). -/
structure PullResult where
  body : Option Body
  err : Option GoString
  deriving DecidableEq, Repr

/-- The world outside the program: the operating system and the
container-engine client.  Errors are represented by their messages.
`imagePull n ref` is the answer to the call of `ImagePull` on `ref` that comes
after `n` earlier calls. -/
structure Env where
  hostname : Except GoString GoString
  now : GoString
  osOpen : GoString → Except GoString File
  newClient : GoString → GoString → Option GoString
  imagePull : Nat → GoString → PullResult
  imageList : Except GoString (List Image)
  marshalIndent : OutputMap → Except GoString GoString
  stdoutWrite : GoString → Option GoString

/-- The external operations a run performs, recorded in order. -/
inductive Op where
  | osHostname
  | timeNow
  | osOpen (filename : GoString)
  | readAll (filename : GoString)
  | newClient (uri version : GoString)
  | imagePull (ref : GoString)
  | copyStderr (progress : GoString)
  | imageList
  | stdoutWrite (bytes : GoString)
  deriving DecidableEq, Repr

/-- How a run ends: normally, through `log.Fatal` / `log.Fatalf` (the message is
logged and the process exits with status 1), or through the run-time panic of a
method call on a nil interface value. -/
inductive Outcome where
  | success
  | fatal (msg : GoString)
  | nilPanic
  deriving DecidableEq, Repr

/-- The run ended in the fatal error of `log.Fatal`: the error was logged and the
process exited with status 1.  A run-time panic is not one: nothing is logged
and the process exits with status 2. -/
def Outcome.isFatal : Outcome → Bool
  | Outcome.success => false
  | Outcome.fatal _ => true
  | Outcome.nilPanic => false

/-- A run of `main`: the external operations performed and how it ended. -/
structure Run where
  trace : List Op
  outcome : Outcome
  deriving DecidableEq, Repr

/-- `ReadImages` of `main.go`, with the operations it performs. -/
def ReadImages (env : Env) (filename : GoString) :
    List Op × Except GoString (List GoString) :=
  match env.osOpen filename with
  | Except.error e => ([Op.osOpen filename], Except.error e)
  | Except.ok file =>
    match file.readAll with
    | Except.error e => ([Op.osOpen filename, Op.readAll filename], Except.error e)
    | Except.ok filebytes =>
      ([Op.osOpen filename, Op.readAll filename], Except.ok (ReadLines filebytes))

/-- The state of the pull loop of `main`: the references retained so far, the
operations performed so far, and the fatal ending, if the loop was cut short. -/
structure PullState where
  repoTags : List GoString
  trace : List Op
  ended : Option Outcome
  deriving DecidableEq, Repr

/-- The pull loop of `main` (lines 106-119) over the remaining names.  The
reference is appended to `repoTags` before the pull.  `defer body.Close()` stands
before the error check: on a nil body it is a method call on a nil interface
value, a run-time panic; otherwise the deferred call never runs before the
process exits and has no effect on the run. -/
def pullLoop (env : Env) (repo tag : GoString) : List GoString → PullState → PullState
  | [], st => st
  | img :: rest, st =>
    let ref := mkRef repo tag img
    let res := env.imagePull st.repoTags.length ref
    let repoTags := st.repoTags ++ [ref]
    let trace := st.trace ++ [Op.imagePull ref]
    match res.body with
    | none => { repoTags := repoTags, trace := trace, ended := some Outcome.nilPanic }
    | some body =>
      match res.err with
      | some e => { repoTags := repoTags, trace := trace, ended := some (Outcome.fatal e) }
      | none =>
        match body.copyErr with
        | some e =>
          { repoTags := repoTags, trace := trace ++ [Op.copyStderr body.progress],
            ended := some (Outcome.fatal e) }
        | none =>
          pullLoop env repo tag rest
            { repoTags := repoTags, trace := trace ++ [Op.copyStderr body.progress],
              ended := none }

/-- The part of `main` after the pull loop (lines 121-145): list, filter,
marshal, write. -/
def report (env : Env) (hostname date : GoString) (repoTags : List GoString)
    (trace : List Op) : Run :=
  match env.imageList with
  | Except.error e => { trace := trace ++ [Op.imageList], outcome := Outcome.fatal e }
  | Except.ok listedImages =>
    let output : OutputMap :=
      { Hostname := hostname, Date := date, Images := filterImages repoTags listedImages }
    match env.marshalIndent output with
    | Except.error e =>
      { trace := trace ++ [Op.imageList],
        outcome := Outcome.fatal (str "Error marshalling JSON: " ++ e) }
    | Except.ok imgJSON =>
      match env.stdoutWrite imgJSON with
      | some e =>
        { trace := trace ++ [Op.imageList, Op.stdoutWrite imgJSON],
          outcome := Outcome.fatal e }
      | none =>
        { trace := trace ++ [Op.imageList, Op.stdoutWrite imgJSON],
          outcome := Outcome.success }

/-- The function `main` of `main.go` on the parsed flags. -/
def main (flags : Flags) (env : Env) : Run :=
  if flags.images = str "" then
    { trace := [], outcome := Outcome.fatal (str "--images must be set") }
  else if flags.tag = str "" then
    { trace := [], outcome := Outcome.fatal (str "--tag must be set") }
  else
    let hostname : GoString :=
      match env.hostname with
      | Except.ok h => h
      | Except.error _ => str ""
    let date := env.now
    let loaded := ReadImages env flags.images
    let trace := [Op.osHostname, Op.timeNow] ++ loaded.1
    match loaded.2 with
    | Except.error e => { trace := trace, outcome := Outcome.fatal e }
    | Except.ok imageList =>
      match env.newClient flags.uri (str "v1.22") with
      | some e =>
        { trace := trace ++ [Op.newClient flags.uri (str "v1.22")],
          outcome := Outcome.fatal (str "Error creating docker client: " ++ e) }
      | none =>
        let st := pullLoop env flags.repo flags.tag imageList
          { repoTags := [], trace := trace ++ [Op.newClient flags.uri (str "v1.22")],
            ended := none }
        match st.ended with
        | some o => { trace := st.trace, outcome := o }
        | none => report env hostname date st.repoTags st.trace

/-- The references passed to `ImagePull`, in the order of the calls. -/
def pulledRefs (trace : List Op) : List GoString :=
  trace.filterMap (fun op => match op with
    | Op.imagePull ref => some ref
    | _ => none)

/-- A pull that succeeds: `ImagePull` returns a body and no error, and draining
the body succeeds. -/
def PullResult.ok (res : PullResult) : Bool :=
  match res.body, res.err with
  | some body, none => body.copyErr.isNone
  | _, _ => false

/-- A pull that fails: `ImagePull` returns an error, or it returns a body and no
error and draining the body fails. -/
def PullResult.failed (res : PullResult) : Bool :=
  match res.err, res.body with
  | some _, _ => true
  | none, some body => body.copyErr.isSome
  | none, none => false

/-- An environment for examples: every pull answers with `answer`, the file
holds `content`, and the engine lists `listed`. -/
def exampleEnv (content : List UInt8) (answer : Nat → GoString → PullResult)
    (listed : List Image) : Env :=
  { hostname := Except.ok (str "host")
    now := str "2006-01-02T15:04:05-07:00"
    osOpen := fun _ => Except.ok { readAll := Except.ok content }
    newClient := fun _ _ => none
    imagePull := answer
    imageList := Except.ok listed
    marshalIndent := fun o => Except.ok (o.Hostname ++ o.Date ++ (o.Images.map Image.ID).flatten)
    stdoutWrite := fun _ => none }

/-- A pull answer that always succeeds with an empty progress stream. -/
def pullFine : Nat → GoString → PullResult :=
  fun _ _ => { body := some { progress := [], copyErr := none }, err := none }

/-- A pull answer that fails at call `k` with an error and no body, as the
client library does, and succeeds at every other call. -/
def pullFailsAt (k : Nat) : Nat → GoString → PullResult :=
  fun n ref => if n = k then { body := none, err := some (str "not found") } else pullFine n ref

/-- A pull answer whose call `k` returns a body and no error, but draining the
body fails; every other call succeeds. -/
def pullDrainFailsAt (k : Nat) : Nat → GoString → PullResult :=
  fun n ref =>
    if n = k then
      { body := some { progress := [], copyErr := some (str "unexpected EOF") }, err := none }
    else pullFine n ref

/-! ## The filter: the loops as one expression -/

theorem filterAliases_eq (rt : GoString) (li : Image) (out : List Image) :
    filterAliases rt li out = out ++ List.replicate (li.RepoTags.count rt) li := by
  unfold filterAliases
  generalize li.RepoTags = tags
  induction tags generalizing out with
  | nil => simp
  | cons t ts ih =>
    rw [List.foldl_cons, ih]
    by_cases h : t = rt
    · subst h
      simp [List.replicate_succ, List.count_cons_self]
    · have h2 : (t == rt) = false := by simpa using h
      simp [h, List.count_cons, h2]

theorem filterListed_eq (rt : GoString) (listedImages out : List Image) :
    filterListed rt listedImages out
      = out ++ listedImages.flatMap (fun li => List.replicate (li.RepoTags.count rt) li) := by
  unfold filterListed
  induction listedImages generalizing out with
  | nil => simp
  | cons li ls ih =>
    rw [List.foldl_cons, ih, filterAliases_eq, List.flatMap_cons, List.append_assoc]

theorem filterLoop_eq (repoTags : List GoString) (listedImages out : List Image) :
    filterLoop repoTags listedImages out
      = out ++ repoTags.flatMap (fun rt =>
          listedImages.flatMap (fun li => List.replicate (li.RepoTags.count rt) li)) := by
  unfold filterLoop
  induction repoTags generalizing out with
  | nil => simp
  | cons rt rs ih =>
    rw [List.foldl_cons, ih, filterListed_eq, List.flatMap_cons, List.append_assoc]

theorem filterImages_eq (repoTags : List GoString) (listedImages : List Image) :
    filterImages repoTags listedImages
      = repoTags.flatMap (fun rt =>
          listedImages.flatMap (fun li => List.replicate (li.RepoTags.count rt) li)) := by
  unfold filterImages
  rw [filterLoop_eq, List.nil_append]

theorem filterImagesSet_eq (repoTags : List GoString) (listedImages : List Image) :
    filterImagesSet repoTags listedImages
      = listedImages.flatMap (fun li =>
          List.replicate (li.RepoTags.countP (fun t => decide (t ∈ repoTags))) li) := by
  unfold filterImagesSet
  have inner : ∀ (li : Image) (tags : List GoString) (out : List Image),
      tags.foldl (fun out listedRepoTag =>
          if listedRepoTag ∈ repoTags.toFinset then out ++ [li] else out) out
        = out ++ List.replicate (tags.countP (fun t => decide (t ∈ repoTags))) li := by
    intro li tags
    induction tags with
    | nil => intro out; simp
    | cons t ts ih =>
      intro out
      rw [List.foldl_cons, ih]
      by_cases h : t ∈ repoTags
      · simp [h, List.countP_cons, List.replicate_succ]
      · simp [h, List.countP_cons]
  have outer : ∀ (ls out : List Image),
      ls.foldl (fun out li => li.RepoTags.foldl (fun out listedRepoTag =>
          if listedRepoTag ∈ repoTags.toFinset then out ++ [li] else out) out) out
        = out ++ ls.flatMap (fun li =>
            List.replicate (li.RepoTags.countP (fun t => decide (t ∈ repoTags))) li) := by
    intro ls
    induction ls with
    | nil => intro out; simp
    | cons li ls ih =>
      intro out
      rw [List.foldl_cons, ih, inner, List.flatMap_cons, List.append_assoc]
  simpa using outer listedImages []

/-- The number of times `x` occurs among the copies made for one weight
function over the listed images. -/
theorem count_flatMap_replicate (w : Image → Nat) (x : Image) (ls : List Image) :
    List.count x (ls.flatMap (fun li => List.replicate (w li) li)) = ls.count x * w x := by
  induction ls with
  | nil => simp
  | cons li ls ih =>
    rw [List.flatMap_cons, List.count_append, ih, List.count_replicate, List.count_cons]
    by_cases h : li = x
    · subst h; simp [Nat.add_mul, Nat.add_comm]
    · have h2 : (li == x) = false := by simpa using h
      simp [h2]

theorem count_filterImages (repoTags : List GoString) (listedImages : List Image)
    (x : Image) :
    List.count x (filterImages repoTags listedImages)
      = listedImages.count x * (repoTags.map (fun rt => x.RepoTags.count rt)).sum := by
  rw [filterImages_eq]
  induction repoTags with
  | nil => simp
  | cons rt rs ih =>
    rw [List.flatMap_cons, List.count_append, ih,
      count_flatMap_replicate (fun li => li.RepoTags.count rt)]
    simp [Nat.mul_add]

theorem count_filterImagesSet (repoTags : List GoString) (listedImages : List Image)
    (x : Image) :
    List.count x (filterImagesSet repoTags listedImages)
      = listedImages.count x * x.RepoTags.countP (fun t => decide (t ∈ repoTags)) := by
  rw [filterImagesSet_eq,
    count_flatMap_replicate (fun li => li.RepoTags.countP (fun t => decide (t ∈ repoTags)))]

theorem count_cons_add {α : Type} [BEq α] [LawfulBEq α] (a b : α) (l : List α) :
    List.count a (b :: l) = List.count a l + (if (b == a) = true then 1 else 0) := by
  rw [List.count_cons]

theorem count_eq_one_of_nodup {α : Type} [BEq α] [LawfulBEq α] (a : α) (l : List α)
    (hnd : l.Nodup) (ha : a ∈ l) : List.count a l = 1 := by
  induction l with
  | nil => cases ha
  | cons b l ih =>
    rw [List.nodup_cons] at hnd
    rw [count_cons_add]
    by_cases h : b = a
    · subst h
      rw [List.count_eq_zero_of_not_mem hnd.1]
      simp
    · have hb : (b == a) = false := by
        cases hba : (b == a)
        · rfl
        · exact absurd (eq_of_beq hba) h
      have ha2 : a ∈ l := by
        rcases List.mem_cons.mp ha with e | e
        · exact absurd e.symm h
        · exact e
      rw [ih hnd.2 ha2, hb]
      rfl

/-- Summing, over pairwise distinct references, the occurrences of each among
the aliases counts the aliases that are requested. -/
theorem sum_count_eq_countP {α : Type} [BEq α] [LawfulBEq α] (repoTags tags : List α)
    (hnd : repoTags.Nodup) :
    (repoTags.map (fun rt => tags.count rt)).sum
      = tags.countP (fun t => decide (t ∈ repoTags)) := by
  induction tags with
  | nil => simp
  | cons t ts ih =>
    have step : (repoTags.map (fun rt => (t :: ts).count rt)).sum
        = (repoTags.map (fun rt => ts.count rt)).sum + repoTags.count t := by
      clear ih hnd
      induction repoTags with
      | nil => simp
      | cons r rs ih2 =>
        rw [List.map_cons, List.sum_cons, ih2, List.map_cons, List.sum_cons,
          count_cons_add r t ts, count_cons_add t r rs]
        have hsym : (t == r) = (r == t) := by
          cases h1 : (t == r) <;> cases h2 : (r == t) <;> try rfl
          · exact absurd (eq_of_beq h2).symm (by intro e; subst e; simp at h1)
          · exact absurd (eq_of_beq h1).symm (by intro e; subst e; simp at h2)
        rw [hsym]
        omega
    rw [step, ih, List.countP_cons]
    by_cases h : t ∈ repoTags
    · rw [count_eq_one_of_nodup t repoTags hnd h]; simp [h]
    · rw [List.count_eq_zero_of_not_mem h]; simp [h]

/-- The number of index pairs at which two lists agree, as a sum of counts. -/
theorem card_pairs_eq_sum {α : Type} [BEq α] [LawfulBEq α] [DecidableEq α]
    (repoTags tags : List α) :
    (Finset.univ.filter (fun p : Fin repoTags.length × Fin tags.length =>
        repoTags[p.1.1] = tags[p.2.1])).card
      = (repoTags.map (fun rt => tags.count rt)).sum := by
  have hcount : ∀ rt : α,
      (∑ k : Fin tags.length, if rt = tags[k.1] then 1 else 0) = tags.count rt := by
    intro rt
    rw [Fin.sum_univ_get' tags (fun t => if rt = t then 1 else 0)]
    induction tags with
    | nil => simp
    | cons t ts ih =>
      rw [List.map_cons, List.sum_cons, ih, count_cons_add]
      by_cases h : rt = t
      · subst h; simp; omega
      · have h3 : (t == rt) = false := by
          cases hb : (t == rt)
          · rfl
          · exact absurd (eq_of_beq hb).symm h
        simp [h, h3]
  rw [Finset.card_filter, Fintype.sum_prod_type]
  exact (Finset.sum_congr rfl (fun i _ => hcount repoTags[i.1])).trans
    (Fin.sum_univ_get' repoTags (fun rt => tags.count rt))

theorem mem_filterImages (repoTags : List GoString) (listedImages : List Image)
    (x : Image) :
    x ∈ filterImages repoTags listedImages
      ↔ x ∈ listedImages ∧ ∃ t ∈ x.RepoTags, t ∈ repoTags := by
  rw [filterImages_eq]
  simp only [List.mem_flatMap, List.mem_replicate]
  constructor
  · rintro ⟨rt, hrt, li, hli, hne, rfl⟩
    exact ⟨hli, rt, List.count_pos_iff.mp (Nat.pos_of_ne_zero hne), hrt⟩
  · rintro ⟨hx, t, ht, htr⟩
    exact ⟨t, htr, x, hx, Nat.ne_of_gt (List.count_pos_iff.mpr ht), rfl⟩

theorem mem_filterImagesSet (repoTags : List GoString) (listedImages : List Image)
    (x : Image) :
    x ∈ filterImagesSet repoTags listedImages
      ↔ x ∈ listedImages ∧ ∃ t ∈ x.RepoTags, t ∈ repoTags := by
  rw [filterImagesSet_eq]
  simp only [List.mem_flatMap, List.mem_replicate]
  constructor
  · rintro ⟨li, hli, hne, rfl⟩
    obtain ⟨t, ht, hp⟩ := List.countP_pos_iff.mp (Nat.pos_of_ne_zero hne)
    exact ⟨hli, t, ht, by simpa using hp⟩
  · rintro ⟨hx, t, ht, htr⟩
    exact ⟨x, hx, Nat.ne_of_gt (List.countP_pos_iff.mpr ⟨t, ht, by simpa using htr⟩), rfl⟩

/-! ## Claims about the filter step -/

/-- C1: for listed images that are pairwise distinct, each listed image occurs
in `output.Images` exactly as many times as there are index pairs `(i, k)` with
`repoTags[i] = li.RepoTags[k]`; an image with no such pair does not occur; and
for the names `foo` and `bar`, repo `acme`, tag `v1` and one listed record with
aliases `["acme/foo:v1"]` the output is exactly that record, once. -/
theorem C1_filter_count_pairs (repoTags : List GoString) (listedImages : List Image)
    (hnd : listedImages.Nodup) (li : Image) (hli : li ∈ listedImages) :
    List.count li (filterImages repoTags listedImages)
        = (Finset.univ.filter (fun p : Fin repoTags.length × Fin li.RepoTags.length =>
            repoTags[p.1.1] = li.RepoTags[p.2.1])).card
      ∧ ((Finset.univ.filter (fun p : Fin repoTags.length × Fin li.RepoTags.length =>
            repoTags[p.1.1] = li.RepoTags[p.2.1])).card = 0
          → li ∉ filterImages repoTags listedImages)
      ∧ (∀ record : Image, record.RepoTags = [str "acme/foo:v1"] →
          filterImages ([str "foo", str "bar"].map (mkRef (str "acme") (str "v1"))) [record]
            = [record]) := by
  have hcount : List.count li (filterImages repoTags listedImages)
      = (Finset.univ.filter (fun p : Fin repoTags.length × Fin li.RepoTags.length =>
          repoTags[p.1.1] = li.RepoTags[p.2.1])).card := by
    rw [count_filterImages, card_pairs_eq_sum, List.count_eq_one_of_mem hnd hli, Nat.one_mul]
  refine ⟨hcount, ?_, ?_⟩
  · intro h0
    rw [h0] at hcount
    exact List.count_eq_zero.mp hcount
  · intro record hrec
    rw [filterImages_eq]
    simp only [List.map_cons, List.map_nil, List.flatMap_cons, List.flatMap_nil, hrec,
      List.append_nil]
    have h1 : List.count (mkRef (str "acme") (str "v1") (str "foo")) [str "acme/foo:v1"] = 1 := by
      decide
    have h2 : List.count (mkRef (str "acme") (str "v1") (str "bar")) [str "acme/foo:v1"] = 0 := by
      decide
    rw [h1, h2]
    rfl

/-- Witness of C1 at the example of the spec: one listed record with the alias
`acme/foo:v1`, requested references `acme/foo:v1` and `acme/bar:v1`. -/
theorem C1_filter_count_pairs_witness :
    [(⟨str "sha256:1", [str "acme/foo:v1"]⟩ : Image)].Nodup
      ∧ (⟨str "sha256:1", [str "acme/foo:v1"]⟩ : Image) ∈ [(⟨str "sha256:1", [str "acme/foo:v1"]⟩ : Image)]
      ∧ List.count (⟨str "sha256:1", [str "acme/foo:v1"]⟩ : Image)
          (filterImages [str "acme/foo:v1", str "acme/bar:v1"]
            [⟨str "sha256:1", [str "acme/foo:v1"]⟩]) = 1 :=
  ⟨by decide, by decide,
    (C1_filter_count_pairs [str "acme/foo:v1", str "acme/bar:v1"]
      [⟨str "sha256:1", [str "acme/foo:v1"]⟩] (by decide)
      ⟨str "sha256:1", [str "acme/foo:v1"]⟩ (by decide)).1.trans (by decide)⟩

/-- C2: a record appears in `output.Images` if and only if it is one of the
listed images and one of its `RepoTags` equals one of the requested references. -/
theorem C2_filter_membership (repoTags : List GoString) (listedImages : List Image)
    (x : Image) :
    x ∈ filterImages repoTags listedImages
      ↔ x ∈ listedImages ∧ ∃ t, t ∈ x.RepoTags ∧ t ∈ repoTags := by
  rw [mem_filterImages]

/-- C8, refuted as stated: with two requested references and two listed images
whose aliases match them in the opposite order, the triple loop and the
set-based replacement give the two images in different orders. -/
theorem C8_set_filter_counterexample :
    filterImages [str "acme/foo:v1", str "acme/bar:v1"]
        [⟨str "sha256:1", [str "acme/bar:v1"]⟩, ⟨str "sha256:2", [str "acme/foo:v1"]⟩]
      ≠ filterImagesSet [str "acme/foo:v1", str "acme/bar:v1"]
        [⟨str "sha256:1", [str "acme/bar:v1"]⟩, ⟨str "sha256:2", [str "acme/foo:v1"]⟩] := by
  decide

/-- C8, amended: the triple loop and the set-based replacement put the same
records in the output, and when the requested references are pairwise distinct
every record occurs equally often in both (each output is a permutation of the
other). -/
theorem C8_set_filter_same_records (repoTags : List GoString) (listedImages : List Image) :
    (∀ x : Image, x ∈ filterImages repoTags listedImages
        ↔ x ∈ filterImagesSet repoTags listedImages)
      ∧ (repoTags.Nodup →
          List.Perm (filterImages repoTags listedImages)
            (filterImagesSet repoTags listedImages)) := by
  refine ⟨fun x => ?_, fun hnd => ?_⟩
  · rw [mem_filterImages, mem_filterImagesSet]
  · rw [List.perm_iff_count]
    intro x
    rw [count_filterImages, count_filterImagesSet, sum_count_eq_countP _ _ hnd]

/-- Witness of the amended C8: two distinct references, two listed images. -/
theorem C8_set_filter_same_records_witness :
    [str "acme/foo:v1", str "acme/bar:v1"].Nodup
      ∧ List.Perm
          (filterImages [str "acme/foo:v1", str "acme/bar:v1"]
            [⟨str "sha256:1", [str "acme/bar:v1"]⟩, ⟨str "sha256:2", [str "acme/foo:v1"]⟩])
          (filterImagesSet [str "acme/foo:v1", str "acme/bar:v1"]
            [⟨str "sha256:1", [str "acme/bar:v1"]⟩, ⟨str "sha256:2", [str "acme/foo:v1"]⟩]) :=
  ⟨by decide,
    (C8_set_filter_same_records [str "acme/foo:v1", str "acme/bar:v1"]
      [⟨str "sha256:1", [str "acme/bar:v1"]⟩, ⟨str "sha256:2", [str "acme/foo:v1"]⟩]).2
      (by decide)⟩

/-- C10: the filter distributes over concatenation of the reference list, gives
nothing for no reference, lists for one reference the matching images in the
order of the listed images (each once per matching alias), and repeats the whole
block of a repeated reference. -/
theorem C10_filter_append (r1 r2 : List GoString) (listedImages : List Image)
    (rt : GoString) :
    filterImages (r1 ++ r2) listedImages
        = filterImages r1 listedImages ++ filterImages r2 listedImages
      ∧ filterImages [] listedImages = []
      ∧ filterImages [rt] listedImages
          = listedImages.flatMap (fun li => List.replicate (li.RepoTags.count rt) li)
      ∧ filterImages [rt, rt] listedImages
          = filterImages [rt] listedImages ++ filterImages [rt] listedImages := by
  simp only [filterImages_eq, List.flatMap_append, List.flatMap_cons, List.flatMap_nil,
    List.append_nil, and_self]

/-! ## The pull loop -/

theorem PullResult.ok_iff (res : PullResult) :
    res.ok = true ↔ ∃ body, res.body = some body ∧ res.err = none ∧ body.copyErr = none := by
  rcases res with ⟨_ | body, _ | e⟩ <;> simp [PullResult.ok]

theorem pulledRefs_append (t1 t2 : List Op) :
    pulledRefs (t1 ++ t2) = pulledRefs t1 ++ pulledRefs t2 := by
  simp [pulledRefs, List.filterMap_append]

/-- An operation of the pull loop: a pull, or the copy of its progress to
standard error. -/
theorem pullLoop_trace (env : Env) (repo tag : GoString) (names : List GoString)
    (st : PullState) (op : Op) (hop : op ∈ (pullLoop env repo tag names st).trace) :
    op ∈ st.trace ∨ (∃ ref, op = Op.imagePull ref) ∨ (∃ p, op = Op.copyStderr p) := by
  induction names generalizing st with
  | nil => exact Or.inl hop
  | cons img rest ih =>
    simp only [pullLoop] at hop
    split at hop
    · simp only [List.mem_append, List.mem_singleton] at hop
      rcases hop with h | h
      · exact Or.inl h
      · exact Or.inr (Or.inl ⟨_, h⟩)
    · split at hop
      · simp only [List.mem_append, List.mem_singleton] at hop
        rcases hop with h | h
        · exact Or.inl h
        · exact Or.inr (Or.inl ⟨_, h⟩)
      · split at hop
        · simp only [List.mem_append, List.mem_singleton] at hop
          rcases hop with (h | h) | h
          · exact Or.inl h
          · exact Or.inr (Or.inl ⟨_, h⟩)
          · exact Or.inr (Or.inr ⟨_, h⟩)
        · rcases ih _ hop with h | h
          · simp only [List.mem_append, List.mem_singleton] at h
            rcases h with (h | h) | h
            · exact Or.inl h
            · exact Or.inr (Or.inl ⟨_, h⟩)
            · exact Or.inr (Or.inr ⟨_, h⟩)
          · exact Or.inr h

/-- When every pull succeeds the loop runs to its end, retains one reference per
name and has pulled exactly these references. -/
theorem pullLoop_all_ok (env : Env) (repo tag : GoString) (names : List GoString)
    (st : PullState) (hst : st.ended = none)
    (hok : ∀ i (h : i < names.length),
      (env.imagePull (st.repoTags.length + i) (mkRef repo tag names[i])).ok = true) :
    (pullLoop env repo tag names st).ended = none
      ∧ (pullLoop env repo tag names st).repoTags
          = st.repoTags ++ names.map (mkRef repo tag)
      ∧ pulledRefs (pullLoop env repo tag names st).trace
          = pulledRefs st.trace ++ names.map (mkRef repo tag) := by
  induction names generalizing st with
  | nil => simp [pullLoop, hst]
  | cons img rest ih =>
    obtain ⟨body, hb, he, hc⟩ := (PullResult.ok_iff _).mp (hok 0 (by simp))
    simp only [Nat.add_zero, List.getElem_cons_zero] at hb he
    simp only [pullLoop, hb, he, hc]
    have hrest := ih
      { repoTags := st.repoTags ++ [mkRef repo tag img],
        trace := st.trace ++ [Op.imagePull (mkRef repo tag img)] ++ [Op.copyStderr body.progress],
        ended := none } rfl
      (by
        intro i h
        have := hok (i + 1) (by simpa using h)
        simpa [Nat.add_assoc, Nat.add_comm 1 i] using this)
    obtain ⟨h1, h2, h3⟩ := hrest
    refine ⟨h1, ?_, ?_⟩
    · rw [h2]; simp
    · rw [h3]; simp [pulledRefs_append, pulledRefs]

/-- When the pull at index `i` is the first to fail the loop is cut short there,
having pulled the references of the names up to index `i` and none after: by the
nil-interface panic when `ImagePull` returned no body, by `log.Fatal` with the
error otherwise. -/
theorem pullLoop_first_failure (env : Env) (repo tag : GoString) (names : List GoString)
    (st : PullState) (i : Nat) (hi : i < names.length)
    (hbefore : ∀ j (hj : j < i),
      (env.imagePull (st.repoTags.length + j) (mkRef repo tag names[j])).ok = true)
    (hfail : (env.imagePull (st.repoTags.length + i) (mkRef repo tag names[i])).failed = true) :
    (∃ o, (pullLoop env repo tag names st).ended = some o
        ∧ o = (match (env.imagePull (st.repoTags.length + i) (mkRef repo tag names[i])).body,
                  (env.imagePull (st.repoTags.length + i) (mkRef repo tag names[i])).err with
               | none, _ => Outcome.nilPanic
               | some _, some e => Outcome.fatal e
               | some body, none => Outcome.fatal (body.copyErr.getD [])))
      ∧ pulledRefs (pullLoop env repo tag names st).trace
          = pulledRefs st.trace ++ (names.take (i + 1)).map (mkRef repo tag) := by
  induction names generalizing st i with
  | nil => simp at hi
  | cons img rest ih =>
    cases i with
    | zero =>
      simp only [Nat.add_zero, List.getElem_cons_zero] at hfail ⊢
      generalize hres : env.imagePull st.repoTags.length (mkRef repo tag img) = res at hfail
      rcases res with ⟨_ | body, _ | e⟩
      · simp [PullResult.failed] at hfail
      · simp [pullLoop, hres, pulledRefs_append, pulledRefs]
      · simp only [PullResult.failed] at hfail
        cases hc : body.copyErr with
        | none => simp [hc] at hfail
        | some e =>
          simp [pullLoop, hres, hc, pulledRefs_append, pulledRefs]
      · simp [pullLoop, hres, pulledRefs_append, pulledRefs]
    | succ k =>
      obtain ⟨body, hb, he, hc⟩ := (PullResult.ok_iff _).mp (hbefore 0 (by omega))
      simp only [Nat.add_zero, List.getElem_cons_zero] at hb he
      simp only [pullLoop, hb, he, hc]
      have hrest := ih
        { repoTags := st.repoTags ++ [mkRef repo tag img],
          trace := st.trace ++ [Op.imagePull (mkRef repo tag img)] ++ [Op.copyStderr body.progress],
          ended := none } k (by simpa using hi)
        (by
          intro j hj
          have := hbefore (j + 1) (by omega)
          simpa [Nat.add_assoc, Nat.add_comm 1 j] using this)
        (by simpa [Nat.add_assoc, Nat.add_comm 1 k] using hfail)
      obtain ⟨h1, h2⟩ := hrest
      refine ⟨?_, ?_⟩
      · simpa [Nat.add_assoc, Nat.add_comm 1 k] using h1
      · rw [h2]; simp [pulledRefs_append, pulledRefs]

/-! ## Claims about the run of `main` -/

/-- C3: when every pull succeeds, the pull loop of `main` runs to its end, the
retained list `repoTags` has the length of the list of names, its entry at every
index `i` is `repo ++ "/" ++ names[i] ++ ":" ++ tag`, and the references passed
to `ImagePull` are this same list in the same order. -/
theorem C3_reference_builder (env : Env) (repo tag : GoString) (names : List GoString)
    (before : List Op)
    (hok : ∀ i (h : i < names.length),
      (env.imagePull i (mkRef repo tag names[i])).ok = true) :
    (pullLoop env repo tag names { repoTags := [], trace := before, ended := none }).ended
        = none
      ∧ (pullLoop env repo tag names
          { repoTags := [], trace := before, ended := none }).repoTags.length = names.length
      ∧ (∀ i (h : i < names.length),
          (pullLoop env repo tag names
            { repoTags := [], trace := before, ended := none }).repoTags[i]?
            = some (repo ++ str "/" ++ names[i] ++ str ":" ++ tag))
      ∧ pulledRefs (pullLoop env repo tag names
          { repoTags := [], trace := before, ended := none }).trace
        = pulledRefs before ++ (pullLoop env repo tag names
          { repoTags := [], trace := before, ended := none }).repoTags := by
  obtain ⟨h1, h2, h3⟩ := pullLoop_all_ok env repo tag names
    { repoTags := [], trace := before, ended := none } rfl
    (by intro i h; simpa using hok i h)
  refine ⟨h1, ?_, ?_, ?_⟩
  · rw [h2]; simp
  · intro i h
    rw [h2]
    simp [h, mkRef]
  · rw [h3, h2]; simp

/-- Witness of C3: the names `foo`, a blank line and `foo` again, every pull
succeeding. -/
theorem C3_reference_builder_witness :
    (pullLoop (exampleEnv [] pullFine []) (str "acme") (str "v1")
        [str "foo", str "", str "foo"]
        { repoTags := [], trace := [], ended := none }).repoTags
      = [str "acme/foo:v1", str "acme/:v1", str "acme/foo:v1"]
    ∧ pulledRefs (pullLoop (exampleEnv [] pullFine []) (str "acme") (str "v1")
        [str "foo", str "", str "foo"]
        { repoTags := [], trace := [], ended := none }).trace
      = [str "acme/foo:v1", str "acme/:v1", str "acme/foo:v1"] := by
  have h := C3_reference_builder (exampleEnv [] pullFine []) (str "acme") (str "v1")
    [str "foo", str "", str "foo"] [] (by intro i h; rfl)
  refine ⟨by decide, ?_⟩
  rw [h.2.2.2]
  decide

/-- C6: when the `--images` value or the `--tag` value is the empty string, the
run ends in a fatal error with the message `--images must be set` (images empty)
or else `--tag must be set`, and it has performed no external operation at all:
no file read, no client construction, no pull, no list, no write to standard
output. -/
theorem C6_required_flags (flags : Flags) (env : Env)
    (h : flags.images = str "" ∨ flags.tag = str "") :
    (main flags env).outcome
        = Outcome.fatal (if flags.images = str "" then str "--images must be set"
            else str "--tag must be set")
      ∧ (main flags env).trace = [] := by
  unfold main
  by_cases hi : flags.images = str ""
  · simp [hi]
  · have ht : flags.tag = str "" := h.resolve_left hi
    simp [hi, ht]

/-- Witness of C6: the default flags (neither `--images` nor `--tag` given), and
flags with `--images` given but no `--tag`. -/
theorem C6_required_flags_witness :
    (main defaultFlags (exampleEnv [] pullFine [])).outcome
        = Outcome.fatal (str "--images must be set")
      ∧ (main { defaultFlags with images := str "list.txt" }
          (exampleEnv [] pullFine [])).outcome = Outcome.fatal (str "--tag must be set")
      ∧ (main { defaultFlags with images := str "list.txt" }
          (exampleEnv [] pullFine [])).trace = [] :=
  ⟨(C6_required_flags defaultFlags (exampleEnv [] pullFine []) (Or.inl rfl)).1,
   (C6_required_flags { defaultFlags with images := str "list.txt" }
      (exampleEnv [] pullFine []) (Or.inr rfl)).1,
   (C6_required_flags { defaultFlags with images := str "list.txt" }
      (exampleEnv [] pullFine []) (Or.inr rfl)).2⟩

/-- The run of `main` when the pull at index `i` is the first to fail: the run is
cut short there, by the nil-interface panic of `defer body.Close()` when
`ImagePull` returned no body and by `log.Fatal` with the error otherwise; the
pulls issued are exactly those of the names at indices `0..i` in input order,
`ImageList` is never called and nothing is written to standard output. -/
theorem main_first_pull_failure (flags : Flags) (env : Env) (names : List GoString) (i : Nat)
    (himages : flags.images ≠ str "") (htag : flags.tag ≠ str "")
    (hload : (ReadImages env flags.images).2 = Except.ok names)
    (hclient : env.newClient flags.uri (str "v1.22") = none)
    (hi : i < names.length)
    (hbefore : ∀ j (hj : j < i),
      (env.imagePull j (mkRef flags.repo flags.tag names[j])).ok = true)
    (hfail : (env.imagePull i (mkRef flags.repo flags.tag names[i])).failed = true) :
    (main flags env).outcome
          = (match (env.imagePull i (mkRef flags.repo flags.tag names[i])).body,
                (env.imagePull i (mkRef flags.repo flags.tag names[i])).err with
             | none, _ => Outcome.nilPanic
             | some _, some e => Outcome.fatal e
             | some body, none => Outcome.fatal (body.copyErr.getD []))
      ∧ pulledRefs (main flags env).trace
          = (names.take (i + 1)).map (mkRef flags.repo flags.tag)
      ∧ Op.imageList ∉ (main flags env).trace
      ∧ ∀ bytes, Op.stdoutWrite bytes ∉ (main flags env).trace := by
  have hops : ∀ op ∈ (ReadImages env flags.images).1,
      op = Op.osOpen flags.images ∨ op = Op.readAll flags.images := by
    intro op hop
    unfold ReadImages at hop
    split at hop
    · exact Or.inl (by simpa using hop)
    · split at hop <;> simpa using hop
  obtain ⟨⟨o, ho, hwhich⟩, hrefs⟩ := pullLoop_first_failure env flags.repo flags.tag
    names
    { repoTags := [],
      trace := [Op.osHostname, Op.timeNow] ++ (ReadImages env flags.images).1
        ++ [Op.newClient flags.uri (str "v1.22")],
      ended := none } i hi
    (by intro j hj; simpa using hbefore j hj) (by simpa using hfail)
  have htrace := pullLoop_trace env flags.repo flags.tag names
    { repoTags := [],
      trace := [Op.osHostname, Op.timeNow] ++ (ReadImages env flags.images).1
        ++ [Op.newClient flags.uri (str "v1.22")],
      ended := none }
  have hmain : main flags env
      = { trace := (pullLoop env flags.repo flags.tag names
            { repoTags := [],
              trace := [Op.osHostname, Op.timeNow] ++ (ReadImages env flags.images).1
                ++ [Op.newClient flags.uri (str "v1.22")],
              ended := none }).trace,
          outcome := o } := by
    unfold main
    simp only [himages, htag, if_false, hload, hclient, ho]
  have hno : ∀ op, (op = Op.imageList ∨ ∃ bytes, op = Op.stdoutWrite bytes) →
      op ∉ (main flags env).trace := by
    intro op hop hmem
    rw [hmain] at hmem
    rcases htrace op hmem with h | ⟨ref, h⟩ | ⟨p, h⟩
    · simp only [List.mem_append, List.mem_cons, List.mem_singleton, List.not_mem_nil,
        or_false] at h
      rcases h with ((h | h) | h) | h
      · subst h; rcases hop with h | ⟨_, h⟩ <;> cases h
      · subst h; rcases hop with h | ⟨_, h⟩ <;> cases h
      · rcases hops op h with h | h <;> subst h <;> rcases hop with h | ⟨_, h⟩ <;> cases h
      · subst h; rcases hop with h | ⟨_, h⟩ <;> cases h
    · subst h; rcases hop with h | ⟨_, h⟩ <;> cases h
    · subst h; rcases hop with h | ⟨_, h⟩ <;> cases h
  have hnopull : pulledRefs ([Op.osHostname, Op.timeNow] ++ (ReadImages env flags.images).1
        ++ [Op.newClient flags.uri (str "v1.22")]) = [] := by
    rw [pulledRefs_append, pulledRefs_append]
    have : pulledRefs (ReadImages env flags.images).1 = [] := by
      unfold pulledRefs
      rw [List.filterMap_eq_nil_iff]
      intro op hop
      rcases hops op hop with h | h <;> subst h <;> rfl
    rw [this]
    rfl
  refine ⟨?_, ?_, hno _ (Or.inl rfl), fun bytes => hno _ (Or.inr ⟨bytes, rfl⟩)⟩
  · rw [hmain]; simpa using hwhich
  · rw [hmain, hrefs, hnopull, List.nil_append]

/-- C7, at an input where the code misses it: three names are loaded and the
second `ImagePull` returns an error and, as the client library does, no body.
The run does not end in the fatal error of `log.Fatal(err)`: the deferred
`body.Close()` ahead of the error check panics on the nil body, so the error
`not found` is never logged.  The rest of the claim holds there: the pulls issued
are those of the first two names, `ImageList` is not called and nothing is
written to standard output.  On the sibling path, a pull whose body fails to
drain, the run does end in `log.Fatal` with the error. -/
theorem C7_pull_error_panics :
    (main { defaultFlags with images := str "list.txt", tag := str "v1" }
        (exampleEnv (str "foo\nbar\nbaz\n") (pullFailsAt 1) [])).outcome = Outcome.nilPanic
      ∧ (main { defaultFlags with images := str "list.txt", tag := str "v1" }
          (exampleEnv (str "foo\nbar\nbaz\n") (pullFailsAt 1) [])).outcome.isFatal = false
      ∧ (main { defaultFlags with images := str "list.txt", tag := str "v1" }
          (exampleEnv (str "foo\nbar\nbaz\n") (pullFailsAt 1) [])).outcome
          ≠ Outcome.fatal (str "not found")
      ∧ pulledRefs (main { defaultFlags with images := str "list.txt", tag := str "v1" }
          (exampleEnv (str "foo\nbar\nbaz\n") (pullFailsAt 1) [])).trace
          = [str "discoenv/foo:v1", str "discoenv/bar:v1"]
      ∧ Op.imageList ∉ (main { defaultFlags with images := str "list.txt", tag := str "v1" }
          (exampleEnv (str "foo\nbar\nbaz\n") (pullFailsAt 1) [])).trace
      ∧ (main { defaultFlags with images := str "list.txt", tag := str "v1" }
          (exampleEnv (str "foo\nbar\nbaz\n") (pullDrainFailsAt 1) [])).outcome
          = Outcome.fatal (str "unexpected EOF") := by
  decide

/-! ## The scanner: what `ReadLines` returns -/

theorem scanSpec_nil : scanSpec [] = [] := by
  rw [scanSpec]; simp

theorem scanSpec_of_mem (d : List UInt8) (h : (10 : UInt8) ∈ d)
    (hlt : List.indexOf 10 d < maxScanTokenSize) :
    scanSpec d = dropCR (d.take (List.indexOf 10 d))
      :: scanSpec (d.drop (List.indexOf 10 d + 1)) := by
  have hne : d ≠ [] := List.ne_nil_of_mem h
  have hi : List.indexOf 10 d < d.length := List.indexOf_lt_length.mpr h
  rw [scanSpec]
  simp [hne, hi, hlt]

theorem scanSpec_of_mem_far (d : List UInt8) (h : (10 : UInt8) ∈ d)
    (hge : maxScanTokenSize ≤ List.indexOf 10 d) : scanSpec d = [] := by
  have hne : d ≠ [] := List.ne_nil_of_mem h
  have hi : List.indexOf 10 d < d.length := List.indexOf_lt_length.mpr h
  rw [scanSpec]
  simp [hne, hi, Nat.not_lt.mpr hge]

theorem scanSpec_of_not_mem (d : List UInt8) (h : (10 : UInt8) ∉ d) (hne : d ≠ [])
    (hlt : d.length < maxScanTokenSize) : scanSpec d = [dropCR d] := by
  have hi : ¬ List.indexOf 10 d < d.length := fun hlt => h (List.indexOf_lt_length.mp hlt)
  rw [scanSpec]
  simp [hne, hi, hlt]

theorem scanSpec_of_not_mem_long (d : List UInt8) (h : (10 : UInt8) ∉ d)
    (hge : maxScanTokenSize ≤ d.length) : scanSpec d = [] := by
  have hi : ¬ List.indexOf 10 d < d.length := fun hlt => h (List.indexOf_lt_length.mp hlt)
  rw [scanSpec]
  simp [hi, Nat.not_lt.mpr hge]

/-- A full buffer without a newline: the line is too long, nothing more is
returned. -/
theorem scanSpec_of_long_window (w r : List UInt8) (h : (10 : UInt8) ∉ w)
    (hlen : maxScanTokenSize ≤ w.length) : scanSpec (w ++ r) = [] := by
  by_cases hm : (10 : UInt8) ∈ w ++ r
  · apply scanSpec_of_mem_far _ hm
    rw [List.indexOf_append_of_not_mem h]
    omega
  · apply scanSpec_of_not_mem_long _ hm
    rw [List.length_append]
    omega

theorem ScanLines_of_mem (w : List UInt8) (atEOF : Bool) (h : (10 : UInt8) ∈ w) :
    ScanLines w atEOF
      = (List.indexOf 10 w + 1, some (dropCR (w.take (List.indexOf 10 w)))) := by
  have hi : List.indexOf 10 w < w.length := List.indexOf_lt_length.mpr h
  have hlen : w.length ≠ 0 := by omega
  simp [ScanLines, hi, hlen]

theorem ScanLines_of_not_mem (w : List UInt8) (h : (10 : UInt8) ∉ w) :
    ScanLines w false = (0, none) := by
  have hi : ¬ List.indexOf 10 w < w.length := fun hlt => h (List.indexOf_lt_length.mp hlt)
  simp [ScanLines, hi]

theorem ScanLines_at_end (w : List UInt8) (h : (10 : UInt8) ∉ w) (hne : w ≠ []) :
    ScanLines w true = (w.length, some (dropCR w)) := by
  have hi : ¬ List.indexOf 10 w < w.length := fun hlt => h (List.indexOf_lt_length.mp hlt)
  have hlen : w.length ≠ 0 := by
    intro h0; exact hne (List.length_eq_zero.mp h0)
  simp [ScanLines, hi, hlen]

theorem ScanLines_nil_at_end : ScanLines [] true = (0, none) := by
  simp [ScanLines]

theorem maxScanTokenSize_eq : maxScanTokenSize = 65536 := rfl

theorem startBufSize_eq : startBufSize = 4096 := rfl

theorem maxInt_half : maxInt / 2 = 4611686018427387903 := by
  norm_num [maxInt]

/-- A read into free space keeps the invariant and the unconsumed input, and
brings the scanner nearer to its end. -/
theorem Scanner.read_spec (s : Scanner) (hend : s.endPos < s.bufLen)
    (hbuf : s.bufLen ≤ maxScanTokenSize) (herr : s.err = none) :
    s.read.Inv ∧ s.read.turns < s.turns ∧ s.read.window ++ s.read.r = s.window ++ s.r := by
  rcases s with ⟨r, bufLen, start, w, err⟩
  simp only [Scanner.endPos] at hend
  simp only at hbuf herr
  subst herr
  unfold Scanner.read
  by_cases hr : r.length = 0
  · have hr2 : r = [] := List.length_eq_zero.mp hr
    subst hr2
    simp only [List.length_nil, if_true, Scanner.setErr, Scanner.Inv, Scanner.turns]
    refine ⟨⟨by omega, hbuf, Or.inr ⟨trivial, trivial, hend⟩⟩, ?_, trivial⟩
    simp
  · have hk : ¬ (bufLen - (start + w.length) = 0) := by omega
    simp only [hr, if_false, Scanner.endPos, hk, Scanner.Inv, Scanner.turns]
    refine ⟨⟨?_, hbuf, Or.inl trivial⟩, ?_, ?_⟩
    · simp only [List.length_append, List.length_take]
      omega
    · simp only [List.length_append, List.length_take, List.length_drop, if_true]
      omega
    · rw [List.append_assoc, List.take_append_drop]

/-- The second half of a turn, before the end of input and with no newline in
the window: either the buffer is full at its largest size and the scanner gives
up on a line that is too long, or more input is read. -/
theorem Scanner.fill_spec (s : Scanner) (hinv : s.Inv) (herr : s.err = none)
    (hnl : (10 : UInt8) ∉ s.window) :
    (∃ s1, s.fill = ScanStep.stop s1 ∧ scanSpec (s.window ++ s.r) = [])
      ∨ (∃ s1, s.fill = ScanStep.again s1 ∧ s1.Inv ∧ s1.turns < s.turns
          ∧ s1.window ++ s1.r = s.window ++ s.r) := by
  rcases s with ⟨r, bufLen, start, w, err⟩
  obtain ⟨hfit, hbuf, _⟩ := hinv
  simp only at hfit hbuf herr hnl
  subst herr
  unfold Scanner.fill
  simp only [Option.isSome_none, Bool.false_eq_true, if_false, Scanner.endPos]
  by_cases hshift : 0 < start ∧ (start + w.length = bufLen ∨ bufLen / 2 < start)
  · -- the data is shifted to the front of the buffer
    have hend : w.length < bufLen := by omega
    have hne : ¬ (0 + w.length = bufLen) := by omega
    rw [if_pos hshift]
    simp only [hne, if_false]
    right
    have hread := Scanner.read_spec
      { r := r, bufLen := bufLen, start := 0, window := w, err := none }
      (by simpa [Scanner.endPos] using hend) hbuf rfl
    exact ⟨_, rfl, hread.1, by simpa [Scanner.turns] using hread.2.1, hread.2.2⟩
  · rw [if_neg hshift]
    simp only
    by_cases hfull : start + w.length = bufLen
    · have hstart : start = 0 := by
        by_contra h0
        exact hshift ⟨Nat.pos_of_ne_zero h0, Or.inl hfull⟩
      subst hstart
      simp only [Nat.zero_add] at hfull
      simp only [Nat.zero_add, hfull, if_true]
      by_cases hmax : maxScanTokenSize ≤ bufLen ∨ maxInt / 2 < bufLen
      · simp only [hmax, if_true]
        left
        refine ⟨_, rfl, ?_⟩
        have hlen : maxScanTokenSize ≤ w.length := by
          rcases hmax with h | h
          · omega
          · rw [maxInt_half] at h
            rw [maxScanTokenSize_eq] at hbuf
            omega
        exact scanSpec_of_long_window w r hnl hlen
      · simp only [hmax, if_false]
        right
        have hlt : bufLen < maxScanTokenSize := by
          have := not_or.mp hmax
          omega
        have hread := Scanner.read_spec
          { r := r,
            bufLen := min (if bufLen * 2 = 0 then startBufSize else bufLen * 2) maxScanTokenSize,
            start := 0, window := w, err := none }
          (by
            simp only [Scanner.endPos, Nat.zero_add]
            rw [startBufSize_eq]
            rw [maxScanTokenSize_eq] at hlt ⊢
            split <;> omega)
          (by simp only; exact Nat.min_le_right _ _) rfl
        exact ⟨_, rfl, hread.1, by simpa [Scanner.turns] using hread.2.1, hread.2.2⟩
    · simp only [hfull, if_false]
      right
      have hread := Scanner.read_spec
        { r := r, bufLen := bufLen, start := start, window := w, err := none }
        (by simp only [Scanner.endPos]; omega) hbuf rfl
      exact ⟨_, rfl, hread.1, hread.2.1, hread.2.2⟩

/-- One turn of `Scan`: it returns the next line of the unconsumed input, or
stops when there is none, or goes round again on the same unconsumed input. -/
theorem Scanner.iterate_spec (s : Scanner) (hinv : s.Inv) :
    (∃ tok s1, s.iterate = ScanStep.token tok s1 ∧ s1.Inv ∧ s1.turns < s.turns
        ∧ scanSpec (s.window ++ s.r) = tok :: scanSpec (s1.window ++ s1.r))
      ∨ (∃ s1, s.iterate = ScanStep.stop s1 ∧ scanSpec (s.window ++ s.r) = [])
      ∨ (∃ s1, s.iterate = ScanStep.again s1 ∧ s1.Inv ∧ s1.turns < s.turns
          ∧ s1.window ++ s1.r = s.window ++ s.r) := by
  by_cases hmem : (10 : UInt8) ∈ s.window
  · -- a full line is held
    left
    rcases s with ⟨r, bufLen, start, w, err⟩
    obtain ⟨hfit, hbuf, herr⟩ := hinv
    simp only at hfit hbuf herr hmem
    have hi : List.indexOf 10 w < w.length := List.indexOf_lt_length.mpr hmem
    have hpos : 0 < w.length ∨ err.isSome = true := Or.inl (by omega)
    have hadv : ¬ (w.length < List.indexOf 10 w + 1) := by omega
    refine ⟨dropCR (w.take (List.indexOf 10 w)),
      { r := r, bufLen := bufLen, start := start + (List.indexOf 10 w + 1),
        window := w.drop (List.indexOf 10 w + 1), err := err }, ?_, ?_, ?_, ?_⟩
    · unfold Scanner.iterate
      simp only [hpos, if_true, ScanLines_of_mem w _ hmem, hadv, if_false]
    · refine ⟨?_, hbuf, ?_⟩
      · simp only [List.length_drop]; omega
      · rcases herr with h | ⟨h1, h2, h3⟩
        · exact Or.inl h
        · refine Or.inr ⟨h1, h2, ?_⟩
          simp only [List.length_drop]; omega
    · simp only [Scanner.turns, List.length_drop]; omega
    · have hm2 : (10 : UInt8) ∈ w ++ r := List.mem_append_left r hmem
      have hidx : List.indexOf 10 (w ++ r) = List.indexOf 10 w :=
        List.indexOf_append_of_mem hmem
      have hlt : List.indexOf 10 (w ++ r) < maxScanTokenSize := by
        rw [hidx]; omega
      simp only
      rw [scanSpec_of_mem _ hm2 hlt, hidx, List.take_append_of_le_length (by omega),
        List.drop_append_of_le_length (by omega)]
  · rcases s with ⟨r, bufLen, start, w, err⟩
    have hinv2 := hinv
    obtain ⟨hfit, hbuf, herr⟩ := hinv
    simp only at hfit hbuf herr hmem
    rcases herr with herr | ⟨herr, hr, hend⟩
    · -- no line is held and the end of input has not been seen: read more
      subst herr
      right
      have hit : Scanner.iterate { r := r, bufLen := bufLen, start := start, window := w, err := none }
          = Scanner.fill { r := r, bufLen := bufLen, start := start, window := w, err := none } := by
        unfold Scanner.iterate
        by_cases hw : 0 < w.length
        · simp [hw, ScanLines_of_not_mem w hmem]
        · simp [hw]
      rw [hit]
      exact Scanner.fill_spec _ hinv2 rfl hmem
    · subst herr hr
      by_cases hw : w = []
      · -- the end of input, nothing left
        subst hw
        right; left
        refine ⟨{ r := [], bufLen := bufLen, start := 0, window := [], err := some ScanErr.EOF },
          ?_, ?_⟩
        · unfold Scanner.iterate
          simp [ScanLines_nil_at_end, Scanner.fill]
        · simpa using scanSpec_nil
      · -- the end of input: the rest is a final line without a newline
        left
        refine ⟨dropCR w,
          { r := [], bufLen := bufLen, start := start + w.length, window := [],
            err := some ScanErr.EOF }, ?_, ?_, ?_, ?_⟩
        · unfold Scanner.iterate
          simp [ScanLines_at_end w hmem hw]
        · exact ⟨by simpa using hfit, hbuf, Or.inr ⟨rfl, rfl, by simpa using hend⟩⟩
        · have : 0 < w.length := List.length_pos.mpr hw
          simp only [Scanner.turns, List.length_nil]
          simp
          omega
        · simp only [List.append_nil, List.nil_append]
          rw [scanSpec_of_not_mem w hmem hw (by omega), scanSpec_nil]

theorem Scanner.turns_pos (s : Scanner) : 0 < s.turns := by
  unfold Scanner.turns
  split <;> omega

/-- With fuel for the turns still needed, the loop of `ReadLines` ends and has
appended the lines of the unconsumed input. -/
theorem scanAll_spec (fuel : Nat) (s : Scanner) (lines : List GoString) (hinv : s.Inv)
    (hfuel : s.turns ≤ fuel) :
    scanAll fuel s lines = some (lines ++ scanSpec (s.window ++ s.r)) := by
  induction fuel generalizing s lines with
  | zero =>
    have := s.turns_pos
    omega
  | succ fuel ih =>
    rcases s.iterate_spec hinv with ⟨tok, s1, hit, hinv1, hturns, hspec⟩
      | ⟨s1, hit, hspec⟩ | ⟨s1, hit, hinv1, hturns, hspec⟩
    · rw [scanAll, hit]
      simp only
      rw [ih s1 (lines ++ [tok]) hinv1 (by omega), hspec]
      simp
    · rw [scanAll, hit]
      simp only
      rw [hspec, List.append_nil]
    · rw [scanAll, hit]
      simp only
      rw [ih s1 lines hinv1 (by omega), hspec]

theorem NewScanner_inv (content : List UInt8) : (NewScanner content).Inv := by
  simp [NewScanner, Scanner.Inv]

/-- The fuel of `ReadLines` is enough: the loop always ends. -/
theorem scanAll_readLines_isSome (content : List UInt8) :
    scanAll (2 * content.length + 4) (NewScanner content) [] = some (scanSpec content) := by
  rw [scanAll_spec _ _ _ (NewScanner_inv content) (by simp [NewScanner, Scanner.turns])]
  simp [NewScanner]

/-- `ReadLines` returns the lines of the content, as `scanSpec` describes them. -/
theorem ReadLines_eq_scanSpec (content : List UInt8) : ReadLines content = scanSpec content := by
  unfold ReadLines
  rw [scanAll_readLines_isSome]
  rfl

/-! ## Lines, terminators and segments -/

theorem scanSpec_line (l rest : List UInt8) (h10 : (10 : UInt8) ∉ l)
    (hlen : l.length < maxScanTokenSize) :
    scanSpec (l ++ 10 :: rest) = dropCR l :: scanSpec rest := by
  have hidx : List.indexOf 10 (l ++ 10 :: rest) = l.length := by
    rw [List.indexOf_append_of_not_mem h10, List.indexOf_cons_self, Nat.add_zero]
  have hm : (10 : UInt8) ∈ l ++ 10 :: rest :=
    List.mem_append_right l (List.mem_cons_self 10 rest)
  rw [scanSpec_of_mem _ hm (by rw [hidx]; exact hlen), hidx, List.take_left]
  have hdrop : (l ++ 10 :: rest).drop (l.length + 1) = rest := by
    rw [← List.drop_drop, List.drop_left]
    rfl
  rw [hdrop]

theorem scanSpec_line_long (l rest : List UInt8) (h10 : (10 : UInt8) ∉ l)
    (hlen : maxScanTokenSize ≤ l.length) : scanSpec (l ++ 10 :: rest) = [] := by
  have hidx : List.indexOf 10 (l ++ 10 :: rest) = l.length := by
    rw [List.indexOf_append_of_not_mem h10, List.indexOf_cons_self, Nat.add_zero]
  have hm : (10 : UInt8) ∈ l ++ 10 :: rest :=
    List.mem_append_right l (List.mem_cons_self 10 rest)
  exact scanSpec_of_mem_far _ hm (by rw [hidx]; exact hlen)

theorem dropCR_of_not_cr (l : List UInt8) (h : l.getLast? ≠ some 13) : dropCR l = l := by
  unfold dropCR
  rw [if_neg h]

theorem dropCR_append_cr (l : List UInt8) : dropCR (l ++ [13]) = l := by
  unfold dropCR
  rw [if_pos (List.getLast?_concat l), List.dropLast_concat]

theorem getLast?_ne_of_not_mem (l : List UInt8) (c : UInt8) (h : c ∉ l) :
    l.getLast? ≠ some c := by
  intro hlast
  exact h (List.mem_of_mem_getLast? (by rw [hlast]; exact rfl))

theorem writeLines_cons (terminator : List UInt8) (l : GoString) (ls : List GoString) :
    writeLines terminator (l :: ls) = l ++ terminator ++ writeLines terminator ls := by
  simp [writeLines]

/-- Lines without a newline, not ending in a carriage return and shorter than
the largest token come back unchanged from their newline-terminated form. -/
theorem scanSpec_writeLines_lf (lines : List GoString)
    (h : ∀ l ∈ lines, (10 : UInt8) ∉ l ∧ l.getLast? ≠ some 13 ∧ l.length < maxScanTokenSize) :
    scanSpec (writeLines [10] lines) = lines := by
  induction lines with
  | nil => simpa [writeLines] using scanSpec_nil
  | cons l ls ih =>
    obtain ⟨h10, h13, hlen⟩ := h l (List.mem_cons_self l ls)
    rw [writeLines_cons, List.append_assoc, List.singleton_append,
      scanSpec_line l _ h10 hlen, dropCR_of_not_cr l h13,
      ih (fun x hx => h x (List.mem_cons_of_mem l hx))]

/-- Lines without a newline, not ending in a carriage return and, with their
carriage return, shorter than the largest token come back unchanged from their
CRLF-terminated form. -/
theorem scanSpec_writeLines_crlf (lines : List GoString)
    (h : ∀ l ∈ lines, (10 : UInt8) ∉ l ∧ l.getLast? ≠ some 13
      ∧ l.length + 1 < maxScanTokenSize) :
    scanSpec (writeLines [13, 10] lines) = lines := by
  induction lines with
  | nil => simpa [writeLines] using scanSpec_nil
  | cons l ls ih =>
    obtain ⟨h10, h13, hlen⟩ := h l (List.mem_cons_self l ls)
    have hsplit : l ++ [13, 10] ++ writeLines [13, 10] ls
        = (l ++ [13]) ++ 10 :: writeLines [13, 10] ls := by simp
    have h10b : (10 : UInt8) ∉ l ++ [13] := by
      intro hm
      rcases List.mem_append.mp hm with hm | hm
      · exact h10 hm
      · simp at hm
    rw [writeLines_cons, hsplit,
      scanSpec_line (l ++ [13]) _ h10b (by rw [List.length_append]; exact hlen),
      dropCR_append_cr, ih (fun x hx => h x (List.mem_cons_of_mem l hx))]

theorem segments_of_not_mem (d : List UInt8) (h : (10 : UInt8) ∉ d) : segments d = [d] := by
  unfold segments List.splitOn
  apply List.splitOnP_eq_single
  intro x hx hp
  have : x = 10 := by simpa using hp
  exact h (this ▸ hx)

theorem segments_line (l rest : List UInt8) (h : (10 : UInt8) ∉ l) :
    segments (l ++ 10 :: rest) = l :: segments rest := by
  unfold segments List.splitOn
  apply List.splitOnP_first
  · intro x hx hp
    have : x = 10 := by simpa using hp
    exact h (this ▸ hx)
  · simp

theorem segments_ne_nil (d : List UInt8) : segments d ≠ [] := by
  unfold segments List.splitOn
  exact List.splitOnP_ne_nil _ _

/-- The number of lines of a content whose segments are all shorter than the
largest token: the number of segments, not counting an empty last one. -/
theorem length_scanSpec (n : Nat) (d : List UInt8) (hn : d.length < n)
    (hseg : ∀ seg ∈ segments d, seg.length < maxScanTokenSize) :
    (scanSpec d).length
      = (segments d).length - (if (segments d).getLast? = some [] then 1 else 0) := by
  induction n generalizing d with
  | zero => omega
  | succ n ih =>
    by_cases hm : (10 : UInt8) ∈ d
    · obtain ⟨l, rest, rfl, hl⟩ := List.eq_append_cons_of_mem hm
      rw [segments_line l rest hl] at hseg ⊢
      have hlen : l.length < maxScanTokenSize := hseg l (List.mem_cons_self _ _)
      have hrest := ih rest (by simp only [List.length_append, List.length_cons] at hn; omega)
        (fun seg hs => hseg seg (List.mem_cons_of_mem _ hs))
      obtain ⟨s0, ss, hss⟩ := List.exists_cons_of_ne_nil (segments_ne_nil rest)
      rw [scanSpec_line l rest hl hlen, List.length_cons, hrest, hss, List.getLast?_cons_cons]
      simp only [List.length_cons]
      split <;> omega
    · rw [segments_of_not_mem d hm] at hseg ⊢
      by_cases hd : d = []
      · subst hd
        rw [scanSpec_nil]
        simp
      · have hlen : d.length < maxScanTokenSize := hseg d (List.mem_singleton_self d)
        rw [scanSpec_of_not_mem d hm hd hlen]
        simp [hd]

/-! ## Claims about `ReadLines` -/

/-- C4, refuted as stated: the content `a` followed by a newline splits on the
newline byte into two pieces (`a` and the empty piece after the newline), and
`ReadLines` returns one line. -/
theorem C4_line_count_counterexample :
    (ReadLines (str "a\n")).length = 1 ∧ (segments (str "a\n")).length = 2
      ∧ (ReadLines (str "a\n")).length ≠ (segments (str "a\n")).length := by
  decide

/-- C4, amended: for a content whose newline-delimited segments are all shorter
than the 64 KiB token limit, the number of strings returned by `ReadLines` is the
number of segments, not counting the last segment when it is empty (the content
is empty or ends with a newline). -/
theorem C4_line_count (content : List UInt8)
    (hseg : ∀ seg ∈ segments content, seg.length < maxScanTokenSize) :
    (ReadLines content).length
      = (segments content).length
          - (if (segments content).getLast? = some [] then 1 else 0) := by
  rw [ReadLines_eq_scanSpec]
  exact length_scanSpec (content.length + 1) content (Nat.lt_succ_self _) hseg

/-- Witness of the amended C4: two lines and two trailing blank lines. -/
theorem C4_line_count_witness :
    (segments (str "foo\nbar\n\n\n")).length = 5
      ∧ (ReadLines (str "foo\nbar\n\n\n")).length = 4 := by
  refine ⟨by decide, ?_⟩
  rw [C4_line_count (str "foo\nbar\n\n\n") (by decide)]
  decide

/-- C5: for lines without a newline or carriage-return byte, each shorter than
the 64 KiB token limit, `ReadLines` of the bytes obtained by writing each line
followed by one newline returns exactly that list, in order, blank and repeated
lines kept; and for empty content it returns no line. -/
theorem C5_lines_preserved (lines : List GoString)
    (h : ∀ l ∈ lines, (10 : UInt8) ∉ l ∧ (13 : UInt8) ∉ l ∧ l.length < maxScanTokenSize) :
    ReadLines (writeLines [10] lines) = lines ∧ ReadLines [] = [] := by
  refine ⟨?_, ?_⟩
  · rw [ReadLines_eq_scanSpec]
    exact scanSpec_writeLines_lf lines
      (fun l hl => ⟨(h l hl).1, getLast?_ne_of_not_mem l 13 (h l hl).2.1, (h l hl).2.2⟩)
  · rw [ReadLines_eq_scanSpec, scanSpec_nil]

/-- Witness of C5: a name, a blank line and the same name again. -/
theorem C5_lines_preserved_witness :
    ReadLines (writeLines [10] [str "foo", str "", str "foo"])
      = [str "foo", str "", str "foo"] :=
  (C5_lines_preserved [str "foo", str "", str "foo"] (by decide)).1

/-- C9, refuted as stated: a line of 65535 bytes has no newline, does not end in
a carriage return and is shorter than the 64 KiB token limit; terminated by a
newline it is returned, but terminated by CRLF the line with its carriage return
and newline takes 65537 bytes, more than the largest buffer, and `ReadLines`
returns nothing. -/
theorem C9_crlf_counterexample :
    ((10 : UInt8) ∉ longestLine ∧ longestLine.getLast? ≠ some 13
        ∧ longestLine.length < maxScanTokenSize)
      ∧ ReadLines (writeLines [10] [longestLine]) = [longestLine]
      ∧ ReadLines (writeLines [13, 10] [longestLine]) = [] := by
  have h10 : (10 : UInt8) ∉ longestLine := by
    intro hm
    exact absurd (List.mem_replicate.mp hm).2 (by decide)
  have h13 : (13 : UInt8) ∉ longestLine := by
    intro hm
    exact absurd (List.mem_replicate.mp hm).2 (by decide)
  have hlen : longestLine.length = 65535 := List.length_replicate _ _
  have hlt : longestLine.length < maxScanTokenSize := by
    rw [hlen, maxScanTokenSize_eq]; decide
  refine ⟨⟨h10, getLast?_ne_of_not_mem _ 13 h13, hlt⟩, ?_, ?_⟩
  · rw [ReadLines_eq_scanSpec]
    apply scanSpec_writeLines_lf
    intro l hl
    rw [List.mem_singleton] at hl
    subst hl
    exact ⟨h10, getLast?_ne_of_not_mem _ 13 h13, hlt⟩
  · have hw : writeLines [13, 10] [longestLine] = (longestLine ++ [13]) ++ 10 :: [] := by
      simp [writeLines]
    have h10b : (10 : UInt8) ∉ longestLine ++ [13] := by
      intro hm
      rcases List.mem_append.mp hm with hm | hm
      · exact h10 hm
      · simp at hm
    rw [ReadLines_eq_scanSpec, hw]
    apply scanSpec_line_long _ _ h10b
    rw [List.length_append, hlen, maxScanTokenSize_eq]
    decide

/-- C9, amended: for lines without a newline byte, not ending in a
carriage-return byte, each at least two bytes shorter than the 64 KiB token limit
(so that the line with its carriage return is shorter than the limit),
`ReadLines` of the CRLF-terminated bytes returns the same list as `ReadLines` of
the newline-terminated bytes, namely the lines themselves, and no returned string
contains a newline byte. -/
theorem C9_crlf_like_lf (lines : List GoString)
    (h : ∀ l ∈ lines, (10 : UInt8) ∉ l ∧ l.getLast? ≠ some 13
      ∧ l.length + 1 < maxScanTokenSize) :
    ReadLines (writeLines [13, 10] lines) = ReadLines (writeLines [10] lines)
      ∧ ReadLines (writeLines [13, 10] lines) = lines
      ∧ ∀ l ∈ ReadLines (writeLines [13, 10] lines), (10 : UInt8) ∉ l := by
  have hcrlf : ReadLines (writeLines [13, 10] lines) = lines := by
    rw [ReadLines_eq_scanSpec]
    exact scanSpec_writeLines_crlf lines h
  have hlf : ReadLines (writeLines [10] lines) = lines := by
    rw [ReadLines_eq_scanSpec]
    exact scanSpec_writeLines_lf lines
      (fun l hl => ⟨(h l hl).1, (h l hl).2.1, by have := (h l hl).2.2; omega⟩)
  refine ⟨hcrlf.trans hlf.symm, hcrlf, ?_⟩
  intro l hl
  rw [hcrlf] at hl
  exact (h l hl).1

/-- Witness of the amended C9: a name, a blank line and a name holding a
carriage return that is not at its end. -/
theorem C9_crlf_like_lf_witness :
    ReadLines (str "foo\r\n\r\nb\rar\r\n") = [str "foo", str "", str "b\rar"] := by
  have h := (C9_crlf_like_lf [str "foo", str "", str "b\rar"] (by decide)).2.1
  exact h

end ImageLister
